import Mathlib

/-!
Verification of the tg-bot repository (a Telegram ↔ Gemini relay).

The definitions below are a shallow embedding of the in-scope Go files
`internal/app/format.go`, `internal/app/artifacts.go`, the session file
(`src/unnamed/part_000`, package `app`: thinking modes and session state) and
the pure parts of `internal/app/app.go` (rendering, source collection,
keyboard building, history update, and the post-completion handler logic).

Go string values are modelled as Lean `String`; Go `nil` pointers as
`Option`; Go maps used only through insert/lookup as functions
`String → Option _`; Go slices as `List`.
-/

namespace TgBot

/-! ### String helpers (models of Go `strings` functions used by the app) -/

/-- Model of `unicode.IsSpace` restricted to the ASCII whitespace characters
(space, tab, newline, carriage return, vertical tab, form feed); the exotic
Unicode space characters are not exercised by any claim. -/
def isSpaceGo (c : Char) : Bool :=
  c = ' ' || c = '\t' || c = '\n' || c = '\r' || c = '\x0b' || c = '\x0c'

/-- Trim `isSpaceGo` characters from both ends of a character list. -/
def trimCharsGo (l : List Char) : List Char :=
  ((l.dropWhile isSpaceGo).reverse.dropWhile isSpaceGo).reverse

/-- Model of Go `strings.TrimSpace`. -/
def trimSpace (s : String) : String :=
  ⟨trimCharsGo s.data⟩

/-- Model of Go `strings.Join ss sep`. -/
def joinSep (sep : String) : List String → String
  | [] => ""
  | [s] => s
  | s :: rest => s ++ sep ++ joinSep sep rest

/-! ### format.go -/

/-- The characters replaced by the `markdownV2Escaper` replacer in
`format.go` (backslash first, then Telegram MarkdownV2 reserved characters). -/
def reservedChars : List Char :=
  "\\_*[]()~\x60>#+-=|\x7b\x7d.!".data

/-- One step of the replacer: every pattern of `markdownV2Escaper` is a single
character mapped to a backslash followed by that character, so
`strings.Replacer.Replace` acts character by character. -/
def escapeChar (c : Char) : List Char :=
  if c ∈ reservedChars then ['\\', c] else [c]

/-- Model of `escapeMarkdownV2` (format.go line 30). -/
def escapeMarkdownV2 (s : String) : String :=
  ⟨s.data.flatMap escapeChar⟩

/-- Separator characters of the `sentenceSplitter` regexp
`(?m)(?:\.|\?|!|\n)+` in format.go. -/
def isSentenceSep (c : Char) : Bool :=
  c = '.' || c = '?' || c = '!' || c = '\n'

/-- Split a character list at every separator character.  The Go code splits
at maximal *runs* of separators; splitting at every single separator instead
yields the same chunks plus extra empty chunks between adjacent separators,
and `summarizeThoughts` discards every chunk that trims to empty, so the two
splitting styles give `summarizeThoughts` identical results on all inputs. -/
def splitChunks (p : Char → Bool) : List Char → List (List Char)
  | [] => [[]]
  | c :: cs =>
    let r := splitChunks p cs
    if p c then [] :: r
    else
      match r with
      | [] => [[c]]
      | g :: gs => (c :: g) :: gs

/-- The cleaned chunk list built by the loop of `summarizeThoughts`
(format.go lines 37-46): split each fragment at sentence separators, trim
whitespace, drop empty chunks, flatten across fragments in order. -/
def cleanedChunks (thoughts : List String) : List String :=
  thoughts.flatMap fun th =>
    ((splitChunks isSentenceSep th.data).map fun chunk => trimSpace ⟨chunk⟩).filter
      fun s => s ≠ ""

/-- Model of `summarizeThoughts` (format.go lines 36-51). -/
def summarizeThoughts (thoughts : List String) (limit : Nat) : List String :=
  let cleaned := cleanedChunks thoughts
  if cleaned.length > limit then cleaned.take limit ++ ["..."] else cleaned

/-! ### artifacts.go -/

structure sourceRef where
  title : String
  uri : String
deriving Repr, DecidableEq

structure codeSnippet where
  language : String
  code : String
  outcome : String
  output : String
deriving Repr, DecidableEq

structure responseArtifacts where
  thoughts : List String
  sources : List sourceRef
  codeSnippets : List codeSnippet
deriving Repr, DecidableEq

/-- Model of `strconv.FormatUint n 10`: the decimal digits of `n`,
most-significant first, and `"0"` for zero. -/
def natKey (n : Nat) : String :=
  if n = 0 then "0" else ⟨(Nat.digits 10 n).reverse.map Nat.digitChar⟩

/-- The modulus of Go's `uint64` arithmetic. -/
def uint64Size : Nat := 2 ^ 64

/-- Model of `artifactStore`: the `items` map is modelled as a function from
keys to optional bundles, together with the `counter` used for key
generation.  The counter holds the value of the Go `uint64`, kept below
`uint64Size` by the wrap in `put`. -/
structure artifactStore where
  items : String → Option responseArtifacts
  counter : Nat

/-- Model of `newArtifactStore`. -/
def newArtifactStore : artifactStore :=
  { items := fun _ => none, counter := 0 }

/-- Model of `artifactStore.put` (artifacts.go lines 39-49): a nil bundle is
a no-op returning the empty key; otherwise the counter is incremented
(`atomic.AddUint64` wraps at `2 ^ 64`, hence the modulus), its decimal
rendering becomes the key, and the bundle is stored under it. -/
def artifactStore.put (s : artifactStore) (art : Option responseArtifacts) :
    String × artifactStore :=
  match art with
  | none => ("", s)
  | some a =>
    let id := (s.counter + 1) % uint64Size
    let key := natKey id
    (key, { items := fun k => if k = key then some a else s.items k, counter := id })

/-- Model of `artifactStore.get` (artifacts.go lines 51-56): a Go map read
returning the value and the `ok` flag. -/
def artifactStore.get (s : artifactStore) (id : String) :
    Option responseArtifacts × Bool :=
  (s.items id, (s.items id).isSome)

/-- Well-formedness of an artifact store: every occupied key was issued by
the counter, i.e. is the decimal rendering of some already-used counter
value.  It holds for `newArtifactStore` and is preserved by `put`. -/
def artifactStore.WF (s : artifactStore) : Prop :=
  ∀ k, s.items k ≠ none → ∃ n, 1 ≤ n ∧ n ≤ s.counter ∧ k = natKey n

/-! ### Session file: thinking modes and session history -/

def maxHistoryEntries : Nat := 20

def thinkingModeLow : String := "low"
def thinkingModeMedium : String := "medium"
def thinkingModeHigh : String := "high"
def thinkingModeDynamic : String := "dynamic"

def defaultThinkingMode : String := thinkingModeMedium

/-- Model of `parseThinkingMode`. -/
def parseThinkingMode (v : String) : String :=
  if v = thinkingModeLow || v = thinkingModeMedium || v = thinkingModeHigh ||
      v = thinkingModeDynamic then v
  else defaultThinkingMode

/-! ### genai content model (the fields of `genai.Part`, `genai.Content`,
`genai.Candidate` and `genai.GenerateContentResponse` the relay reads) -/

structure CodeExecutionResult where
  outcome : String
  output : String
deriving Repr, DecidableEq

structure ExecutableCode where
  language : String
  code : String
deriving Repr, DecidableEq

structure Part where
  thought : Bool := false
  text : String := ""
  codeExecutionResult : Option CodeExecutionResult := none
  executableCode : Option ExecutableCode := none
deriving Repr, DecidableEq

structure Content where
  role : String
  parts : List (Option Part)
deriving Repr, DecidableEq

structure Citation where
  title : String := ""
  uri : String := ""
deriving Repr, DecidableEq

structure CitationMetadata where
  citations : List (Option Citation)
deriving Repr, DecidableEq

structure GroundingChunkWeb where
  title : String := ""
  uri : String := ""
deriving Repr, DecidableEq

structure GroundingChunk where
  web : Option GroundingChunkWeb
deriving Repr, DecidableEq

structure GroundingMetadata where
  groundingChunks : List (Option GroundingChunk)
deriving Repr, DecidableEq

structure Candidate where
  content : Option Content := none
  citationMetadata : Option CitationMetadata := none
  groundingMetadata : Option GroundingMetadata := none
deriving Repr, DecidableEq

/-- In the genai SDK `BlockedReason` is a string enumeration whose zero
value is `BlockedReasonUnspecified`. -/
def blockedReasonUnspecified : String := "BLOCKED_REASON_UNSPECIFIED"

structure PromptFeedback where
  blockReason : String := blockedReasonUnspecified
deriving Repr, DecidableEq

structure GenerateContentResponse where
  promptFeedback : Option PromptFeedback := none
  candidates : List (Option Candidate) := []
deriving Repr, DecidableEq

/-! ### Session history (`appendTurn`, session file lines 108-118) -/

/-- Model of `sessionState.appendTurn`: append the non-nil turns, then keep
only the last `maxHistoryEntries` entries when over capacity
(`s.history[len(s.history)-maxHistoryEntries:]` is `List.rtake`). -/
def appendTurnHist (h : List Content) (user model : Option Content) : List Content :=
  let h1 := match user with
    | some u => h ++ [u]
    | none => h
  let h2 := match model with
    | some m => h1 ++ [m]
    | none => h1
  if h2.length > maxHistoryEntries then h2.rtake maxHistoryEntries else h2

/-- The history after folding `appendTurn` over a list of full (user, model)
turn pairs, starting from an empty session. -/
def histAfterPairs (ps : List (Content × Content)) : List Content :=
  ps.foldl (fun h p => appendTurnHist h (some p.1) (some p.2)) []

/-- The chronological list of entries appended by a list of full turn pairs. -/
def flatPairs (ps : List (Content × Content)) : List Content :=
  ps.flatMap fun p => [p.1, p.2]

/-- Per-session state: bounded history plus the thinking level. -/
structure sessionState where
  history : List Content
  thinking : String
deriving Repr, DecidableEq

/-! ### app.go: pure response processing -/

/-- Model of `firstCandidate` (app.go lines 557-562). -/
def firstCandidate (resp : GenerateContentResponse) : Option Candidate :=
  match resp.candidates with
  | [] => none
  | c :: _ => c

/-- One iteration of the part loop of `renderResponse` (app.go lines
438-467), accumulating `(mainParts, thoughtParts, codeSnippets)`. -/
def renderStep (acc : List String × List String × List codeSnippet)
    (op : Option Part) : List String × List String × List codeSnippet :=
  match op with
  | none => acc
  | some part =>
    if part.thought then
      (acc.1,
       (if trimSpace part.text ≠ "" then acc.2.1 ++ [trimSpace part.text] else acc.2.1),
       acc.2.2)
    else
      let mains1 :=
        if trimSpace part.text ≠ "" then acc.1 ++ [trimSpace part.text] else acc.1
      let mains2 :=
        match part.codeExecutionResult with
        | some r =>
          if trimSpace r.output ≠ "" then mains1 ++ ["Result:\n" ++ trimSpace r.output]
          else mains1
        | none => mains1
      let snips :=
        match part.executableCode with
        | some ec =>
          let snippet : codeSnippet :=
            match part.codeExecutionResult with
            | some r =>
              { language := ec.language, code := ec.code,
                outcome := r.outcome, output := r.output }
            | none =>
              { language := ec.language, code := ec.code, outcome := "", output := "" }
          acc.2.2 ++ [snippet]
        | none => acc.2.2
      (mains2, acc.2.1, snips)

/-- The citation list of a candidate, empty when the metadata is nil. -/
def candidateCitations (cand : Candidate) : List (Option Citation) :=
  match cand.citationMetadata with
  | some m => m.citations
  | none => []

/-- The grounding-chunk list of a candidate, empty when the metadata is nil. -/
def candidateChunks (cand : Candidate) : List (Option GroundingChunk) :=
  match cand.groundingMetadata with
  | some m => m.groundingChunks
  | none => []

/-- One step of the source loops of `collectSources` (app.go lines 585-611):
trim the URI, skip it when empty or already seen, otherwise record the
trimmed (title, uri) pair and mark the URI seen.  The `seen` map is modelled
as the list of recorded URIs. -/
def addSource (acc : List sourceRef × List String) (title uri : String) :
    List sourceRef × List String :=
  let u := trimSpace uri
  if u = "" || u ∈ acc.2 then acc
  else (acc.1 ++ [{ title := trimSpace title, uri := u }], acc.2 ++ [u])

/-- Model of `collectSources` (app.go lines 578-613): citation entries first,
then grounding-chunk web references, threading one `seen` set through both
loops. -/
def collectSources (candidate : Option Candidate) : List sourceRef :=
  match candidate with
  | none => []
  | some cand =>
    let acc1 := (candidateCitations cand).foldl
      (fun acc oc =>
        match oc with
        | none => acc
        | some c => addSource acc c.title c.uri)
      ([], [])
    let acc2 := (candidateChunks cand).foldl
      (fun acc och =>
        match och with
        | none => acc
        | some ch =>
          match ch.web with
          | none => acc
          | some w => addSource acc w.title w.uri)
      acc1
    acc2.1

/-- Model of `renderResponse` (app.go lines 428-478). -/
def renderResponse (resp : GenerateContentResponse) : String × responseArtifacts :=
  match firstCandidate resp with
  | none => ("", { thoughts := [], sources := [], codeSnippets := [] })
  | some cand =>
    match cand.content with
    | none => ("", { thoughts := [], sources := [], codeSnippets := [] })
    | some content =>
      let acc := content.parts.foldl renderStep ([], [], [])
      let sources := collectSources (some cand)
      (trimSpace (joinSep "\n\n" acc.1),
       { thoughts := acc.2.1, sources := sources, codeSnippets := acc.2.2 })

/-- Model of `filterModelContent` (app.go lines 564-576) on a non-nil
content: keep the non-nil, non-thought parts in order, with the model role. -/
def filterModelContent (content : Content) : Content :=
  { role := "model",
    parts := content.parts.filter fun op =>
      match op with
      | none => false
      | some p => !p.thought }

/-! ### app.go: inline keyboard -/

structure InlineButton where
  text : String
  unique : String
  payload : String
deriving Repr, DecidableEq

/-- Modelled from the spec: `telebot.ReplyMarkup` is part of the chat-platform
SDK, which is not under `src/`; per the spec's contract the built keyboard
offers every button added to it, so `Inline` is modelled as accumulating the
given row. -/
structure ReplyMarkup where
  inlineKeyboard : List (List InlineButton)
deriving Repr, DecidableEq

def showThoughtsUnique : String := "show_thoughts"
def showSourcesUnique : String := "show_sources"
def showCodeUnique : String := "show_code"

/-- Model of `buildResponseMarkup` (app.go lines 480-497): nil when the key
is empty or the bundle is nil; otherwise a "Show thoughts" row, a
"Show sources" row when sources are non-empty, and a "Show code" row when
code snippets are non-empty, every button carrying the artifact key. -/
def buildResponseMarkup (id : String) (art : Option responseArtifacts) :
    Option ReplyMarkup :=
  if id = "" then none
  else
    match art with
    | none => none
    | some a =>
      some { inlineKeyboard :=
        [[{ text := "Show thoughts", unique := showThoughtsUnique, payload := id }]] ++
        (if a.sources ≠ [] then
          [[{ text := "Show sources", unique := showSourcesUnique, payload := id }]]
        else []) ++
        (if a.codeSnippets ≠ [] then
          [[{ text := "Show code", unique := showCodeUnique, payload := id }]]
        else []) }

/-! ### app.go: handler logic after the completion call -/

/-- The blocked-response test of `handleUserMessage` (app.go line 208). -/
def isBlocked (resp : GenerateContentResponse) : Bool :=
  match resp.promptFeedback with
  | some pf => pf.blockReason != blockedReasonUnspecified
  | none => false

/-- Model of `handleUserMessage` from the safety check onward (app.go lines
208-238): on a block reason, send the fixed safety warning and leave session
and artifact store untouched; otherwise render the response, default the
empty reply, append the (user, cleaned model) turn to history, store the
artifacts, and build the keyboard when a key was issued.  The returned
string is the text sent to the user. -/
def processResponse (sess : sessionState) (store : artifactStore)
    (userContent : Content) (resp : GenerateContentResponse) :
    sessionState × artifactStore × String × Option ReplyMarkup :=
  if isBlocked resp then
    (sess, store, "The request was blocked by safety filters.", none)
  else
    let rendered := renderResponse resp
    let reply := if rendered.1 = "" then "No content received." else rendered.1
    let modelTurn : Option Content :=
      match firstCandidate resp with
      | some cand =>
        match cand.content with
        | some content => some (filterModelContent content)
        | none => none
      | none => none
    let hist' := appendTurnHist sess.history (some userContent) modelTurn
    let sess' : sessionState := { sess with history := hist' }
    let putResult := store.put (some rendered.2)
    let markup :=
      if putResult.1 ≠ "" then buildResponseMarkup putResult.1 (some rendered.2)
      else none
    (sess', putResult.2, reply, markup)

/-! ### Spec-side reference definitions

These follow the words of the spec (sections 4.4 step 6 and step 7), to be
compared with the definitions translated from the source. -/

/-- Spec words: reasoning-marked text becomes thought fragments (trimmed,
empty ones dropped), flattened across parts in order. -/
def specThoughtFragments (parts : List (Option Part)) : List String :=
  parts.flatMap fun op =>
    match op with
    | none => []
    | some p =>
      if p.thought && (trimSpace p.text != "") then [trimSpace p.text] else []

/-- Spec words: ordinary (non-reasoning) text becomes main reply segments and
an executed-code result is appended to the main reply as a "Result:" block. -/
def specMainSegments (parts : List (Option Part)) : List String :=
  parts.flatMap fun op =>
    match op with
    | none => []
    | some p =>
      if p.thought then []
      else
        (if trimSpace p.text ≠ "" then [trimSpace p.text] else []) ++
        (match p.codeExecutionResult with
         | some r =>
           if trimSpace r.output ≠ "" then ["Result:\n" ++ trimSpace r.output] else []
         | none => [])

/-- Spec words: an executable-code part creates a new code-snippet record
with its language and source, and a code-execution result on the same part is
recorded as the snippet's outcome and output. -/
def specCodeSnippets (parts : List (Option Part)) : List codeSnippet :=
  parts.flatMap fun op =>
    match op with
    | none => []
    | some p =>
      if p.thought then []
      else
        match p.executableCode with
        | some ec =>
          match p.codeExecutionResult with
          | some r =>
            [{ language := ec.language, code := ec.code,
               outcome := r.outcome, output := r.output }]
          | none =>
            [{ language := ec.language, code := ec.code, outcome := "", output := "" }]
        | none => []

/-- Spec words (step 7): deduplicate by URI, first occurrence wins,
preserving discovery order.  `seen` is the set of URIs already taken. -/
def dedupeByUri : List sourceRef → List String → List sourceRef
  | [], _ => []
  | r :: rest, seen =>
    if r.uri ∈ seen then dedupeByUri rest seen
    else r :: dedupeByUri rest (r.uri :: seen)

/-- The raw (title, uri) pairs of the non-nil citation entries, in order. -/
def citationPairs (cand : Candidate) : List (String × String) :=
  (candidateCitations cand).filterMap fun oc => oc.map fun c => (c.title, c.uri)

/-- The raw (title, uri) pairs of the grounding-chunk web references whose
chunk and web fields are non-nil, in order. -/
def chunkPairs (cand : Candidate) : List (String × String) :=
  (candidateChunks cand).filterMap fun och =>
    (och.bind GroundingChunk.web).map fun w => (w.title, w.uri)

/-- Trim the raw pairs and drop those whose trimmed URI is empty (they carry
no URI and are never collected). -/
def cleanPairs (pairs : List (String × String)) : List sourceRef :=
  pairs.filterMap fun p =>
    if trimSpace p.2 = "" then none
    else some { title := trimSpace p.1, uri := trimSpace p.2 }

/-- The discovery-ordered reference list of a candidate: citation entries
before grounding-chunk web references, trimmed, URI-less entries dropped. -/
def specSourceRefs (cand : Candidate) : List sourceRef :=
  cleanPairs (citationPairs cand ++ chunkPairs cand)

/-! ### Concrete example values -/

/-- The rows of an optional keyboard (none has no rows). -/
def kbRows (m : Option ReplyMarkup) : List (List InlineButton) :=
  match m with
  | none => []
  | some kb => kb.inlineKeyboard

/-- The model content of the end-to-end scenario: one plain-text part "4"
and one code-execution part with output "4\n". -/
def contentScenario : Content :=
  { role := "model",
    parts :=
      [some { text := "4" },
       some { text := "",
              codeExecutionResult := some { outcome := "OUTCOME_OK", output := "4\n" },
              executableCode := some { language := "PYTHON", code := "print(2+2)" } }] }

def candScenario : Candidate :=
  { content := some contentScenario }

/-- The mock completion response of the end-to-end scenario. -/
def respScenario : GenerateContentResponse :=
  { promptFeedback := none, candidates := [some candScenario] }

/-- The artifact bundle the scenario produces: no thoughts, no sources, one
code snippet. -/
def artScenario : responseArtifacts :=
  { thoughts := [],
    sources := [],
    codeSnippets :=
      [{ language := "PYTHON", code := "print(2+2)",
         outcome := "OUTCOME_OK", output := "4\n" }] }

/-- A candidate whose citations are [(A, u1), (B, u2), (C, u1)]. -/
def candDedupEx : Candidate :=
  { citationMetadata := some { citations :=
      [some { title := "A", uri := "u1" },
       some { title := "B", uri := "u2" },
       some { title := "C", uri := "u1" }] } }

/-- A response carrying a content-safety block reason. -/
def respBlocked : GenerateContentResponse :=
  { promptFeedback := some { blockReason := "SAFETY" }, candidates := [] }

/-- A user turn with one text part. -/
def userEx : Content :=
  { role := "user", parts := [some { text := "2+2?" }] }

/-- A fresh session. -/
def sessEx : sessionState :=
  { history := [], thinking := defaultThinkingMode }

/-- An empty artifact bundle. -/
def artEmpty : responseArtifacts :=
  { thoughts := [], sources := [], codeSnippets := [] }

/-- A well-formed store at the 64-bit wrap boundary: its counter holds the
largest `uint64` value and the key "1" (issued by the first `put` of its
history) is still occupied. -/
def storeWrapEx : artifactStore :=
  { items := fun k => if k = "1" then some artEmpty else none,
    counter := 2 ^ 64 - 1 }

/-! ## Theorems -/

/-! ### Helper lemmas -/

theorem rtake_rtake {α : Type} (l : List α) (k m : Nat) :
    (l.rtake k).rtake m = l.rtake (min m k) := by
  simp [List.rtake_eq_reverse_take_reverse, List.take_take]

theorem length_rtake {α : Type} (l : List α) (n : Nat) :
    (l.rtake n).length = min n l.length := by
  simp [List.rtake_eq_reverse_take_reverse]

theorem rtake_all {α : Type} (l : List α) (n : Nat) (h : l.length ≤ n) :
    l.rtake n = l := by
  simp [List.rtake_eq_reverse_take_reverse, List.take_of_length_le, h]

/-! ### C5: markup escaping -/

/-- C5: markup escaping is a total function that prefixes a backslash to
every occurrence of every character in the reserved set: it distributes over
append, sends each reserved character `c` to `\c` and every other character
to itself; `"a*b_c"` becomes `"a\*b\_c"`; and it is not idempotent —
escaping the already-escaped `"\*"` double-escapes it. -/
theorem C5_escape_markdown :
    (∀ s t : String, escapeMarkdownV2 (s ++ t) = escapeMarkdownV2 s ++ escapeMarkdownV2 t) ∧
    (∀ c : Char, c ∈ reservedChars → escapeMarkdownV2 ⟨[c]⟩ = ⟨['\\', c]⟩) ∧
    (∀ c : Char, c ∉ reservedChars → escapeMarkdownV2 ⟨[c]⟩ = ⟨[c]⟩) ∧
    escapeMarkdownV2 "a*b_c" = "a\\*b\\_c" ∧
    escapeMarkdownV2 "\\*" = "\\\\\\*" ∧
    escapeMarkdownV2 (escapeMarkdownV2 "\\*") ≠ escapeMarkdownV2 "\\*" := by
  refine ⟨?_, ?_, ?_, by decide, by decide, by decide⟩
  · intro s t
    cases s with
    | mk l1 =>
      cases t with
      | mk l2 =>
        show (⟨(l1 ++ l2).flatMap escapeChar⟩ : String) =
          ⟨l1.flatMap escapeChar ++ l2.flatMap escapeChar⟩
        rw [List.flatMap_append]
  · intro c hc
    show (⟨escapeChar c ++ []⟩ : String) = ⟨['\\', c]⟩
    simp [escapeChar, hc]
  · intro c hc
    show (⟨escapeChar c ++ []⟩ : String) = ⟨[c]⟩
    simp [escapeChar, hc]

/-- Witness for C5 at concrete characters. -/
theorem C5_escape_markdown_witness :
    escapeMarkdownV2 ⟨['*']⟩ = ⟨['\\', '*']⟩ ∧ escapeMarkdownV2 ⟨['q']⟩ = ⟨['q']⟩ :=
  ⟨C5_escape_markdown.2.1 '*' (by decide), C5_escape_markdown.2.2.1 'q' (by decide)⟩

/-! ### C4: thought summarization -/

/-- C4 counterexample: the claim says a truncated summary ends in the literal
one-character ellipsis "…"; on fragments `["a. b"]` with limit 1 truncation
occurs and the final entry is the three-character `"..."`, not `"…"`. -/
theorem C4_counterexample :
    summarizeThoughts ["a. b"] 1 = ["a", "..."] ∧
    (summarizeThoughts ["a. b"] 1).getLast? ≠ some "…" := by
  constructor
  · decide
  · decide

/-- C4 (amended): summarization splits each fragment at runs of '.', '?',
'!' or line breaks, trims whitespace, discards empty chunks, flattens across
fragments preserving order, and truncates to at most `limit` entries; when
truncation occurs the final entry is the literal `"..."` three-dot marker
(not the one-character ellipsis), giving `limit + 1` entries in total. -/
theorem C4_summarize_amended :
    (∀ (thoughts : List String) (limit : Nat),
      (cleanedChunks thoughts).length ≤ limit →
      summarizeThoughts thoughts limit = cleanedChunks thoughts) ∧
    (∀ (thoughts : List String) (limit : Nat),
      (cleanedChunks thoughts).length > limit →
      summarizeThoughts thoughts limit = (cleanedChunks thoughts).take limit ++ ["..."] ∧
      (summarizeThoughts thoughts limit).length = limit + 1 ∧
      (summarizeThoughts thoughts limit).getLast? = some "...") ∧
    summarizeThoughts ["Go fast. Go far!", ""] 5 = ["Go fast", "Go far"] ∧
    summarizeThoughts ["One. Two. Three. Four! Five? Six.\nSeven"] 5 =
      ["One", "Two", "Three", "Four", "Five", "..."] ∧
    summarizeThoughts ["a...b!!c\n\nd"] 10 = ["a", "b", "c", "d"] := by
  refine ⟨?_, ?_, by decide, by decide, by decide⟩
  · intro thoughts limit h
    simp only [summarizeThoughts]
    rw [if_neg (by omega)]
  · intro thoughts limit h
    have he : summarizeThoughts thoughts limit =
        (cleanedChunks thoughts).take limit ++ ["..."] := by
      simp only [summarizeThoughts]
      rw [if_pos (by omega)]
    refine ⟨he, ?_, ?_⟩
    · rw [he]
      simp [List.length_take]
      omega
    · rw [he]
      simp

/-- Witness for C4 at concrete inputs. -/
theorem C4_summarize_amended_witness :
    summarizeThoughts ["x"] 5 = cleanedChunks ["x"] ∧
    (summarizeThoughts ["a. b"] 1).getLast? = some "..." :=
  ⟨C4_summarize_amended.1 ["x"] 5 (by decide),
   (C4_summarize_amended.2.1 ["a. b"] 1 (by decide)).2.2⟩

/-! ### C3: history truncation -/

theorem appendTurnHist_eq (h : List Content) (u m : Option Content) :
    appendTurnHist h u m =
      if (h ++ u.toList ++ m.toList).length > maxHistoryEntries
      then (h ++ u.toList ++ m.toList).rtake maxHistoryEntries
      else h ++ u.toList ++ m.toList := by
  cases u <;> cases m <;> simp [appendTurnHist]

theorem appendTurn_length_le (h : List Content) (u m : Option Content) :
    (appendTurnHist h u m).length ≤ maxHistoryEntries := by
  rw [appendTurnHist_eq]
  split
  · rw [length_rtake]
    omega
  · omega

theorem flatPairs_append (qs : List (Content × Content)) (p : Content × Content) :
    flatPairs (qs ++ [p]) = flatPairs qs ++ [p.1, p.2] := by
  simp [flatPairs]

theorem flatPairs_length (ps : List (Content × Content)) :
    (flatPairs ps).length = 2 * ps.length := by
  induction ps with
  | nil => rfl
  | cons p rest ih =>
    simp only [flatPairs] at ih ⊢
    simp [ih]
    omega

theorem rtake_append {α : Type} (l1 l2 : List α) (n : Nat) (h : l2.length ≤ n) :
    (l1 ++ l2).rtake n = l1.rtake (n - l2.length) ++ l2 := by
  rw [List.rtake_eq_reverse_take_reverse, List.rtake_eq_reverse_take_reverse]
  rw [List.reverse_append, List.take_append_eq_append_take]
  rw [List.take_of_length_le (by simpa using h)]
  rw [List.reverse_append, List.reverse_reverse, List.length_reverse]

theorem appendTurn_rtake_step (L : List Content) (u v : Content) :
    appendTurnHist (L.rtake (min L.length maxHistoryEntries)) (some u) (some v) =
      (L ++ [u, v]).rtake (min (L.length + 2) maxHistoryEntries) := by
  have hmax : maxHistoryEntries = 20 := rfl
  rw [appendTurnHist_eq]
  simp only [Option.toList_some, hmax]
  by_cases hA : L.length + 2 ≤ 20
  · have hk : min L.length 20 = L.length := by omega
    rw [hk, rtake_all L L.length le_rfl]
    rw [if_neg (by simp; omega)]
    rw [rtake_all _ _ (by simp; omega)]
    simp
  · have hklen : (L.rtake (min L.length 20)).length = min L.length 20 := by
      rw [length_rtake]
      omega
    rw [if_pos (by simp [hklen]; omega)]
    have hmin : min (L.length + 2) 20 = 20 := by omega
    rw [hmin]
    have hassoc : L.rtake (min L.length 20) ++ [u] ++ [v] =
        L.rtake (min L.length 20) ++ [u, v] := by
      simp
    rw [hassoc, rtake_append _ [u, v] 20 (by simp), rtake_append L [u, v] 20 (by simp)]
    norm_num [rtake_rtake]
    have h18 : min 18 (min L.length 20) = 18 := by omega
    rw [h18]

/-- C3: appending turn pairs never lets the stored history exceed 20
entries, and after any sequence of full (user, model) pairs the history is
exactly the most recent `min (2·N) 20` appended entries in chronological
order. -/
theorem C3_history_truncation :
    (∀ (h : List Content) (u m : Option Content),
      (appendTurnHist h u m).length ≤ maxHistoryEntries) ∧
    (∀ ps : List (Content × Content),
      histAfterPairs ps = (flatPairs ps).rtake (min (2 * ps.length) maxHistoryEntries)) := by
  refine ⟨appendTurn_length_le, ?_⟩
  intro ps
  induction ps using List.reverseRecOn with
  | nil => rfl
  | append_singleton qs p ih =>
    have hfold : histAfterPairs (qs ++ [p]) =
        appendTurnHist (histAfterPairs qs) (some p.1) (some p.2) := by
      simp [histAfterPairs, List.foldl_append]
    rw [hfold, ih]
    have hlen : 2 * qs.length = (flatPairs qs).length := (flatPairs_length qs).symm
    rw [hlen, appendTurn_rtake_step, flatPairs_append]
    have : (flatPairs qs).length + 2 = 2 * (qs ++ [p]).length := by
      rw [flatPairs_length]
      simp
      omega
    rw [this]

/-! ### C7: artifact store contract -/

theorem digitChar_inj_lt10 :
    ∀ a < 10, ∀ b < 10, Nat.digitChar a = Nat.digitChar b → a = b := by
  decide

theorem map_digitChar_inj :
    ∀ (l1 l2 : List Nat), (∀ d ∈ l1, d < 10) → (∀ d ∈ l2, d < 10) →
      l1.map Nat.digitChar = l2.map Nat.digitChar → l1 = l2 := by
  intro l1
  induction l1 with
  | nil =>
    intro l2 _ _ hmap
    cases l2 with
    | nil => rfl
    | cons b bs => simp at hmap
  | cons a as ih =>
    intro l2 h1 h2 hmap
    cases l2 with
    | nil => simp at hmap
    | cons b bs =>
      simp only [List.map_cons, List.cons.injEq] at hmap
      have ha : a < 10 := h1 a (List.mem_cons_self a as)
      have hb : b < 10 := h2 b (List.mem_cons_self b bs)
      have hab : a = b := digitChar_inj_lt10 a ha b hb hmap.1
      have htl : as = bs := by
        refine ih bs ?_ ?_ hmap.2
        · intro d hd
          exact h1 d (List.mem_cons_of_mem a hd)
        · intro d hd
          exact h2 d (List.mem_cons_of_mem b hd)
      rw [hab, htl]

theorem natKey_pos_ne_zeroKey {n : Nat} (hn : n ≠ 0) :
    (⟨(Nat.digits 10 n).reverse.map Nat.digitChar⟩ : String) ≠ "0" := by
  intro hcontra
  have hdata : (Nat.digits 10 n).reverse.map Nat.digitChar = ['0'] :=
    congrArg String.data hcontra
  have hlen : (Nat.digits 10 n).length = 1 := by
    have := congrArg List.length hdata
    simpa using this
  obtain ⟨d, hd⟩ := List.length_eq_one.mp hlen
  rw [hd] at hdata
  simp only [List.reverse_singleton, List.map_cons, List.map_nil,
    List.cons.injEq, and_true] at hdata
  have hd10 : d < 10 :=
    Nat.digits_lt_base (by norm_num) (hd ▸ List.mem_singleton_self d)
  have hd0 : d = 0 :=
    digitChar_inj_lt10 d hd10 0 (by norm_num) (by rw [hdata]; rfl)
  have hzero : n = 0 := by
    have := (Nat.ofDigits_digits 10 n).symm
    rw [hd, hd0] at this
    simpa [Nat.ofDigits] using this
  exact hn hzero

theorem natKey_injective {m n : Nat} (h : natKey m = natKey n) : m = n := by
  unfold natKey at h
  by_cases hm : m = 0 <;> by_cases hn : n = 0
  · rw [hm, hn]
  · rw [if_pos hm, if_neg hn] at h
    exact absurd h.symm (natKey_pos_ne_zeroKey hn)
  · rw [if_neg hm, if_pos hn] at h
    exact absurd h (natKey_pos_ne_zeroKey hm)
  · rw [if_neg hm, if_neg hn] at h
    have hlist : (Nat.digits 10 m).reverse.map Nat.digitChar =
        (Nat.digits 10 n).reverse.map Nat.digitChar := congrArg String.data h
    have hdig : (Nat.digits 10 m).reverse = (Nat.digits 10 n).reverse := by
      refine map_digitChar_inj _ _ ?_ ?_ hlist
      · intro d hd
        exact Nat.digits_lt_base (by norm_num) (List.mem_reverse.mp hd)
      · intro d hd
        exact Nat.digits_lt_base (by norm_num) (List.mem_reverse.mp hd)
    exact Nat.digits.injective 10 (List.reverse_injective hdig)

theorem natKey_ne_empty {n : Nat} (h : n ≠ 0) : natKey n ≠ "" := by
  intro hcontra
  rw [natKey, if_neg h] at hcontra
  have : (Nat.digits 10 n).reverse.map Nat.digitChar = [] :=
    congrArg String.data hcontra
  simp only [List.map_eq_nil_iff, List.reverse_eq_nil_iff] at this
  exact (Nat.digits_ne_nil_iff_ne_zero.mpr h) this

theorem newArtifactStore_WF : newArtifactStore.WF := by
  intro k hk
  simp [newArtifactStore] at hk

theorem put_WF (s : artifactStore) (hWF : s.WF) (art : Option responseArtifacts)
    (hrange : s.counter + 1 < uint64Size) : ((s.put art).2).WF := by
  cases art with
  | none => exact hWF
  | some a =>
    have hmod : (s.counter + 1) % uint64Size = s.counter + 1 := Nat.mod_eq_of_lt hrange
    intro k hk
    simp only [artifactStore.put, hmod] at hk ⊢
    by_cases hkey : k = natKey (s.counter + 1)
    · exact ⟨s.counter + 1, by omega, by omega, hkey⟩
    · rw [if_neg hkey] at hk
      obtain ⟨n, h1, h2, h3⟩ := hWF k hk
      exact ⟨n, h1, by omega, h3⟩

/-- No issued key of a well-formed store can collide with the rendering of a
counter value that has not been used yet. -/
theorem items_fresh_none (s : artifactStore) (hWF : s.WF) {n : Nat}
    (hn : s.counter < n) : s.items (natKey n) = none := by
  by_contra hne
  obtain ⟨m, _, hm2, hm3⟩ := hWF _ hne
  have : m = n := natKey_injective hm3.symm
  omega

/-- C7 counterexample: the claim says keys are never reused, but the Go
counter is a wrapping `uint64`.  At the well-formed store `storeWrapEx`
(counter at the largest `uint64` value, key "1" still occupied) the next put
wraps the counter and issues key "0", and the put after that issues key "1"
— a key that is occupied in the very store it is issued from, refuting
"previously-unissued / never reused" as stated. -/
theorem digits_ten_one : Nat.digits 10 1 = [1] := by
  rw [Nat.digits_def' (by norm_num : (1 : ℕ) < 10) (by norm_num)]
  norm_num

theorem natKey_one : natKey 1 = "1" := by
  rw [natKey, if_neg one_ne_zero, digits_ten_one]
  rfl

theorem storeWrapEx_wrap : (storeWrapEx.counter + 1) % uint64Size = 0 := by
  show ((2 ^ 64 - 1) + 1) % 2 ^ 64 = 0
  norm_num

theorem C7_store_contract_counterexample :
    storeWrapEx.WF ∧
    (storeWrapEx.put (some artEmpty)).1 = "0" ∧
    ((storeWrapEx.put (some artEmpty)).2.put (some artEmpty)).1 = "1" ∧
    (storeWrapEx.put (some artEmpty)).2.items "1" = some artEmpty := by
  refine ⟨?_, ?_, ?_, ?_⟩
  · intro k hk
    simp only [storeWrapEx] at hk
    by_cases h1 : k = "1"
    · exact ⟨1, le_refl 1, by decide, by rw [h1, natKey_one]⟩
    · rw [if_neg h1] at hk
      exact absurd rfl hk
  · show natKey ((storeWrapEx.counter + 1) % uint64Size) = "0"
    rw [storeWrapEx_wrap]
    rfl
  · show natKey (((storeWrapEx.put (some artEmpty)).2.counter + 1) % uint64Size) = "1"
    have hc1 : (storeWrapEx.put (some artEmpty)).2.counter = 0 := storeWrapEx_wrap
    rw [hc1]
    have h1 : (0 + 1) % uint64Size = 1 := by
      show (0 + 1) % 2 ^ 64 = 1
      norm_num
    rw [h1, natKey_one]
  · show (if "1" = natKey ((storeWrapEx.counter + 1) % uint64Size) then some artEmpty
        else storeWrapEx.items "1") = some artEmpty
    rw [storeWrapEx_wrap]
    rw [if_neg (by decide)]
    simp [storeWrapEx]

/-- C7 (amended): storing an absent bundle returns the empty key and leaves
the store unchanged; two sequential stores of non-nil bundles into a
well-formed store whose 64-bit counter has not exhausted its range
(counter + 2 < 2^64) issue distinct, previously-unissued, numerically
increasing non-empty keys; and looking up a key that was never issued
returns not-found without error. -/
theorem C7_store_contract_amended :
    (∀ s : artifactStore, s.put none = ("", s)) ∧
    (∀ s : artifactStore, s.WF → s.counter + 2 < uint64Size →
      ∀ a1 a2 : responseArtifacts,
      (s.put (some a1)).1 ≠ "" ∧
      (s.put (some a1)).1 ≠ ((s.put (some a1)).2.put (some a2)).1 ∧
      s.items (s.put (some a1)).1 = none ∧
      (s.put (some a1)).2.items ((s.put (some a1)).2.put (some a2)).1 = none ∧
      (∃ n1 n2 : Nat, (s.put (some a1)).1 = natKey n1 ∧
        ((s.put (some a1)).2.put (some a2)).1 = natKey n2 ∧ n1 < n2)) ∧
    (∀ s : artifactStore, s.WF → ∀ k : String,
      (∀ n, 1 ≤ n → n ≤ s.counter → k ≠ natKey n) → s.get k = (none, false)) := by
  refine ⟨fun s => rfl, ?_, ?_⟩
  · intro s hWF hrange a1 a2
    have hmod1 : (s.counter + 1) % uint64Size = s.counter + 1 :=
      Nat.mod_eq_of_lt (by omega)
    have hkey1 : (s.put (some a1)).1 = natKey (s.counter + 1) :=
      congrArg natKey hmod1
    have hcount1 : (s.put (some a1)).2.counter = s.counter + 1 := hmod1
    have hkey2 : ((s.put (some a1)).2.put (some a2)).1 = natKey (s.counter + 2) := by
      show natKey (((s.put (some a1)).2.counter + 1) % uint64Size) = _
      rw [hcount1]
      exact congrArg natKey (Nat.mod_eq_of_lt (by omega))
    refine ⟨?_, ?_, ?_, ?_, s.counter + 1, s.counter + 2, hkey1, hkey2, by omega⟩
    · rw [hkey1]
      exact natKey_ne_empty (by omega)
    · rw [hkey1, hkey2]
      intro hcontra
      have := natKey_injective hcontra
      omega
    · rw [hkey1]
      exact items_fresh_none s hWF (by omega)
    · rw [hkey2]
      have hWF1 : ((s.put (some a1)).2).WF := put_WF s hWF (some a1) (by omega)
      exact items_fresh_none _ hWF1 (by rw [hcount1]; omega)
  · intro s hWF k hk
    have hnone : s.items k = none := by
      by_contra hne
      obtain ⟨n, h1, h2, h3⟩ := hWF k hne
      exact hk n h1 h2 h3
    simp [artifactStore.get, hnone]

/-- Witness for the amended C7 applied to the empty store. -/
theorem C7_store_contract_amended_witness :
    newArtifactStore.put none = ("", newArtifactStore) ∧
    (newArtifactStore.put (some ⟨[], [], []⟩)).1 ≠ "" ∧
    newArtifactStore.get "k" = (none, false) :=
  ⟨C7_store_contract_amended.1 newArtifactStore,
   (C7_store_contract_amended.2.1 newArtifactStore newArtifactStore_WF
     (by decide) ⟨[], [], []⟩ ⟨[], [], []⟩).1,
   C7_store_contract_amended.2.2 newArtifactStore newArtifactStore_WF "k"
     (by intro n h1 h2 _; simp [newArtifactStore] at h2; omega)⟩

/-! ### C10: artifact store round trip -/

/-- C10: in a sequential execution, looking up the key returned by storing a
non-nil bundle yields exactly that bundle with `found = true`. -/
theorem C10_store_roundtrip :
    ∀ (s : artifactStore) (b : responseArtifacts),
      (s.put (some b)).2.get (s.put (some b)).1 = (some b, true) := by
  intro s b
  simp [artifactStore.put, artifactStore.get]

/-! ### C1: inline keyboard for a reply -/

/-- C1: for a non-empty artifact key, the built keyboard exists and contains
a "Show thoughts" button; it contains a "Show sources" button exactly when
the bundle's sources are non-empty and a "Show code" button exactly when its
code snippets are non-empty; and every button carries the artifact key as
its payload. -/
theorem C1_response_markup (id : String) (a : responseArtifacts) (h : id ≠ "") :
    (buildResponseMarkup id (some a)).isSome = true ∧
    ({ text := "Show thoughts", unique := showThoughtsUnique, payload := id } :
        InlineButton) ∈ (kbRows (buildResponseMarkup id (some a))).flatten ∧
    (({ text := "Show sources", unique := showSourcesUnique, payload := id } :
        InlineButton) ∈ (kbRows (buildResponseMarkup id (some a))).flatten ↔
      a.sources ≠ []) ∧
    (({ text := "Show code", unique := showCodeUnique, payload := id } :
        InlineButton) ∈ (kbRows (buildResponseMarkup id (some a))).flatten ↔
      a.codeSnippets ≠ []) ∧
    (∀ b ∈ (kbRows (buildResponseMarkup id (some a))).flatten, b.payload = id) := by
  rw [buildResponseMarkup]
  rw [if_neg h]
  by_cases hs : a.sources = [] <;> by_cases hc : a.codeSnippets = [] <;>
    simp [kbRows, hs, hc, showThoughtsUnique, showSourcesUnique, showCodeUnique]

/-- Witness for C1 on the scenario bundle (code snippets, no sources) with
key "1": the keyboard offers "Show code" but not "Show sources". -/
theorem C1_response_markup_witness :
    (({ text := "Show code", unique := showCodeUnique, payload := "1" } :
        InlineButton) ∈ (kbRows (buildResponseMarkup "1" (some artScenario))).flatten ↔
      artScenario.codeSnippets ≠ []) ∧
    (({ text := "Show sources", unique := showSourcesUnique, payload := "1" } :
        InlineButton) ∈ (kbRows (buildResponseMarkup "1" (some artScenario))).flatten ↔
      artScenario.sources ≠ []) :=
  ⟨(C1_response_markup "1" artScenario (by decide)).2.2.2.1,
   (C1_response_markup "1" artScenario (by decide)).2.2.1⟩

/-! ### C2: response rendering -/

theorem renderFold_eq (parts : List (Option Part)) (m t : List String)
    (s : List codeSnippet) :
    parts.foldl renderStep (m, t, s) =
      (m ++ specMainSegments parts, t ++ specThoughtFragments parts,
       s ++ specCodeSnippets parts) := by
  induction parts generalizing m t s with
  | nil => simp [specMainSegments, specThoughtFragments, specCodeSnippets]
  | cons op rest ih =>
    cases op with
    | none =>
      simp only [List.foldl_cons, renderStep, ih, specMainSegments,
        specThoughtFragments, specCodeSnippets, List.flatMap_cons]
      simp
    | some p =>
      simp only [List.foldl_cons, renderStep, ih, specMainSegments,
        specThoughtFragments, specCodeSnippets, List.flatMap_cons]
      cases hp : p.thought <;>
        by_cases htx : trimSpace p.text = "" <;>
        cases hcr : p.codeExecutionResult <;>
        cases hec : p.executableCode <;>
        simp [hp, htx]
      all_goals split_ifs <;> simp

/-- C2: rendering segregates the candidate's parts exactly as the spec
describes — reasoning-marked text becomes thought fragments, ordinary text
becomes main reply segments, an executed-code result is appended as a
"Result:" block and recorded on the matching snippet, executable-code parts
become code-snippet records — and the reply is the trimmed blank-line join
of the segments; on the end-to-end scenario (text "4" plus a code-execution
part with output "4\n") the reply is "4\n\nResult:\n4" with one snippet. -/
theorem C2_render_response :
    (∀ (resp : GenerateContentResponse) (cand : Candidate) (content : Content),
      firstCandidate resp = some cand → cand.content = some content →
      renderResponse resp =
        (trimSpace (joinSep "\n\n" (specMainSegments content.parts)),
         { thoughts := specThoughtFragments content.parts,
           sources := collectSources (some cand),
           codeSnippets := specCodeSnippets content.parts })) ∧
    renderResponse respScenario = ("4\n\nResult:\n4", artScenario) := by
  constructor
  · intro resp cand content h1 h2
    simp only [renderResponse, h1, h2]
    rw [renderFold_eq content.parts [] [] []]
    simp
  · decide

/-- Witness for C2 on the scenario response. -/
theorem C2_render_response_witness :
    renderResponse respScenario =
      (trimSpace (joinSep "\n\n" (specMainSegments contentScenario.parts)),
       { thoughts := specThoughtFragments contentScenario.parts,
         sources := collectSources (some candScenario),
         codeSnippets := specCodeSnippets contentScenario.parts }) :=
  C2_render_response.1 respScenario candScenario contentScenario rfl rfl

/-! ### C6: source collection and deduplication -/

theorem dedupeByUri_congr (refs : List sourceRef) (s1 s2 : List String)
    (h : ∀ u, u ∈ s1 ↔ u ∈ s2) : dedupeByUri refs s1 = dedupeByUri refs s2 := by
  induction refs generalizing s1 s2 with
  | nil => rfl
  | cons r rest ih =>
    simp only [dedupeByUri]
    by_cases hr : r.uri ∈ s1
    · rw [if_pos hr, if_pos ((h r.uri).mp hr)]
      exact ih s1 s2 h
    · rw [if_neg hr, if_neg (fun hc => hr ((h r.uri).mpr hc))]
      rw [ih (r.uri :: s1) (r.uri :: s2) (by intro u; simp [h u])]

theorem citFold_eq (cits : List (Option Citation)) (acc : List sourceRef × List String) :
    cits.foldl
      (fun acc oc =>
        match oc with
        | none => acc
        | some c => addSource acc c.title c.uri) acc =
    (cits.filterMap fun oc => oc.map fun c => (c.title, c.uri)).foldl
      (fun acc p => addSource acc p.1 p.2) acc := by
  induction cits generalizing acc with
  | nil => rfl
  | cons oc rest ih =>
    cases oc <;> simp [ih]

theorem chunkFold_eq (chunks : List (Option GroundingChunk))
    (acc : List sourceRef × List String) :
    chunks.foldl
      (fun acc och =>
        match och with
        | none => acc
        | some ch =>
          match ch.web with
          | none => acc
          | some w => addSource acc w.title w.uri) acc =
    (chunks.filterMap fun och =>
        (och.bind GroundingChunk.web).map fun w => (w.title, w.uri)).foldl
      (fun acc p => addSource acc p.1 p.2) acc := by
  induction chunks generalizing acc with
  | nil => rfl
  | cons och rest ih =>
    cases och with
    | none => simp [ih]
    | some ch => cases hw : ch.web <;> simp [ih, hw]

theorem fold_addSource_eq (pairs : List (String × String)) (res : List sourceRef)
    (seen : List String) :
    pairs.foldl (fun acc p => addSource acc p.1 p.2) (res, seen) =
      (res ++ dedupeByUri (cleanPairs pairs) seen,
       seen ++ (dedupeByUri (cleanPairs pairs) seen).map sourceRef.uri) := by
  induction pairs generalizing res seen with
  | nil => simp [cleanPairs, dedupeByUri]
  | cons p rest ih =>
    by_cases htrim : trimSpace p.2 = ""
    · have hstep : addSource (res, seen) p.1 p.2 = (res, seen) := by
        simp [addSource, htrim]
      simp only [List.foldl_cons, hstep, ih]
      simp [cleanPairs, List.filterMap_cons, htrim]
    · by_cases hseen : trimSpace p.2 ∈ seen
      · have hstep : addSource (res, seen) p.1 p.2 = (res, seen) := by
          simp [addSource, htrim, hseen]
        simp only [List.foldl_cons, hstep, ih]
        simp [cleanPairs, List.filterMap_cons, htrim, dedupeByUri, hseen]
      · have hstep : addSource (res, seen) p.1 p.2 =
            (res ++ [{ title := trimSpace p.1, uri := trimSpace p.2 }],
             seen ++ [trimSpace p.2]) := by
          simp [addSource, htrim, hseen]
        simp only [List.foldl_cons, hstep, ih]
        have hcongr : dedupeByUri (cleanPairs rest) (seen ++ [trimSpace p.2]) =
            dedupeByUri (cleanPairs rest) (trimSpace p.2 :: seen) :=
          dedupeByUri_congr _ _ _ (by intro u; simp [or_comm])
        rw [hcongr]
        simp [cleanPairs, List.filterMap_cons, htrim, dedupeByUri, hseen]

theorem dedupe_uri_notin_seen (refs : List sourceRef) (seen : List String) :
    ∀ e ∈ dedupeByUri refs seen, e.uri ∉ seen := by
  induction refs generalizing seen with
  | nil => simp [dedupeByUri]
  | cons r rest ih =>
    intro e he
    simp only [dedupeByUri] at he
    by_cases hr : r.uri ∈ seen
    · rw [if_pos hr] at he
      exact ih seen e he
    · rw [if_neg hr] at he
      rcases List.mem_cons.mp he with h | h
      · rw [h]
        exact hr
      · have := ih (r.uri :: seen) e h
        intro hc
        exact this (List.mem_cons_of_mem _ hc)

theorem dedupe_nodup (refs : List sourceRef) (seen : List String) :
    ((dedupeByUri refs seen).map sourceRef.uri).Nodup := by
  induction refs generalizing seen with
  | nil => simp [dedupeByUri]
  | cons r rest ih =>
    simp only [dedupeByUri]
    by_cases hr : r.uri ∈ seen
    · rw [if_pos hr]
      exact ih seen
    · rw [if_neg hr]
      simp only [List.map_cons, List.nodup_cons]
      refine ⟨?_, ih (r.uri :: seen)⟩
      intro hc
      rcases List.mem_map.mp hc with ⟨e, he, heq⟩
      have := dedupe_uri_notin_seen rest (r.uri :: seen) e he
      rw [heq] at this
      exact this (List.mem_cons_self _ _)

theorem dedupe_find (refs : List sourceRef) (seen : List String) :
    ∀ e ∈ dedupeByUri refs seen, refs.find? (fun r => r.uri == e.uri) = some e := by
  induction refs generalizing seen with
  | nil => simp [dedupeByUri]
  | cons r rest ih =>
    intro e he
    simp only [dedupeByUri] at he
    by_cases hr : r.uri ∈ seen
    · rw [if_pos hr] at he
      have hne : r.uri ≠ e.uri := by
        intro hc
        exact (dedupe_uri_notin_seen rest seen e he) (hc ▸ hr)
      rw [List.find?_cons]
      rw [show (r.uri == e.uri) = false from beq_eq_false_iff_ne.mpr hne]
      exact ih seen e he
    · rw [if_neg hr] at he
      rcases List.mem_cons.mp he with h | h
      · rw [h, List.find?_cons]
        rw [show (r.uri == r.uri) = true from beq_self_eq_true _]
      · have hnotin := dedupe_uri_notin_seen rest (r.uri :: seen) e h
        have hne : r.uri ≠ e.uri := by
          intro hc
          exact hnotin (hc ▸ List.mem_cons_self _ _)
        rw [List.find?_cons]
        rw [show (r.uri == e.uri) = false from beq_eq_false_iff_ne.mpr hne]
        exact ih (r.uri :: seen) e h

theorem dedupe_complete (refs : List sourceRef) (seen : List String) :
    ∀ r ∈ refs, r.uri ∈ seen ∨ ∃ e ∈ dedupeByUri refs seen, e.uri = r.uri := by
  induction refs generalizing seen with
  | nil => simp
  | cons a rest ih =>
    intro r hr
    simp only [dedupeByUri]
    rcases List.mem_cons.mp hr with h | h
    · by_cases ha : a.uri ∈ seen
      · rw [h]
        exact Or.inl ha
      · rw [if_neg ha]
        exact Or.inr ⟨a, List.mem_cons_self _ _, by rw [h]⟩
    · by_cases ha : a.uri ∈ seen
      · rw [if_pos ha]
        exact ih seen r h
      · rw [if_neg ha]
        rcases ih (a.uri :: seen) r h with hmem | ⟨e, he, heq⟩
        · rcases List.mem_cons.mp hmem with h1 | h1
          · exact Or.inr ⟨a, List.mem_cons_self _ _, h1.symm⟩
          · exact Or.inl h1
        · exact Or.inr ⟨e, List.mem_cons_of_mem _ he, heq⟩

/-- C6: the collected source list is the first-occurrence URI-deduplication
of the discovery-ordered references (citations before grounding chunks): its
URIs are pairwise distinct, every collected entry is the first reference
carrying its URI (so the first occurrence's title wins), every reference URI
is represented, and on citations [(A,u1),(B,u2),(C,u1)] the result is
[(A,u1),(B,u2)]. -/
theorem C6_collect_sources :
    (∀ cand : Candidate,
      collectSources (some cand) = dedupeByUri (specSourceRefs cand) [] ∧
      ((collectSources (some cand)).map sourceRef.uri).Nodup ∧
      (∀ e ∈ collectSources (some cand),
        (specSourceRefs cand).find? (fun r => r.uri == e.uri) = some e) ∧
      (∀ r ∈ specSourceRefs cand,
        ∃ e ∈ collectSources (some cand), e.uri = r.uri)) ∧
    collectSources (some candDedupEx) =
      [{ title := "A", uri := "u1" }, { title := "B", uri := "u2" }] := by
  have hmain : ∀ cand : Candidate,
      collectSources (some cand) = dedupeByUri (specSourceRefs cand) [] := by
    intro cand
    simp only [collectSources]
    rw [citFold_eq, chunkFold_eq, ← List.foldl_append, fold_addSource_eq]
    simp [specSourceRefs, citationPairs, chunkPairs]
  refine ⟨?_, by decide⟩
  intro cand
  refine ⟨hmain cand, ?_, ?_, ?_⟩
  · rw [hmain cand]
    exact dedupe_nodup _ _
  · intro e he
    rw [hmain cand] at he
    exact dedupe_find _ _ e he
  · intro r hr
    rcases dedupe_complete (specSourceRefs cand) [] r hr with h | h
    · simp at h
    · rw [hmain cand]
      exact h

/-- Witness for C6 on the dedup example: the collected entry (A, u1) is the
first reference with URI u1. -/
theorem C6_collect_sources_witness :
    (specSourceRefs candDedupEx).find?
      (fun r => r.uri == ({ title := "A", uri := "u1" } : sourceRef).uri) =
      some { title := "A", uri := "u1" } :=
  (C6_collect_sources.1 candDedupEx).2.2.1 { title := "A", uri := "u1" } (by decide)

/-! ### C8: content-safety rejection -/

/-- C8: when the response carries a content-safety block reason the handler
sends the fixed safety notification and stops: the session (history and
thinking level alike) and the artifact store are returned unchanged and no
keyboard is attached. -/
theorem C8_safety_block (sess : sessionState) (store : artifactStore)
    (user : Content) (resp : GenerateContentResponse)
    (h : isBlocked resp = true) :
    processResponse sess store user resp =
      (sess, store, "The request was blocked by safety filters.", none) := by
  simp [processResponse, h]

/-- Witness for C8 on a concrete blocked response and a fresh session. -/
theorem C8_safety_block_witness :
    processResponse sessEx newArtifactStore userEx respBlocked =
      (sessEx, newArtifactStore, "The request was blocked by safety filters.", none) :=
  C8_safety_block sessEx newArtifactStore userEx respBlocked (by decide)

/-! ### C9: persisted model turn -/

theorem appendTurn_getLast_model (h : List Content) (u m : Content) :
    (appendTurnHist h (some u) (some m)).getLast? = some m := by
  rw [appendTurnHist_eq]
  simp only [Option.toList_some]
  split
  · rw [show h ++ [u] ++ [m] = (h ++ [u]) ++ [m] by simp,
      rtake_append _ [m] maxHistoryEntries (by simp [maxHistoryEntries])]
    simp
  · simp

theorem appendTurn_getLast_user (h : List Content) (u : Content) :
    (appendTurnHist h (some u) none).getLast? = some u := by
  rw [appendTurnHist_eq]
  simp only [Option.toList_some, Option.toList_none, List.append_nil]
  split
  · rw [rtake_append h [u] maxHistoryEntries (by simp [maxHistoryEntries])]
    simp
  · simp

/-- C9: the persisted model turn is exactly the candidate content's non-nil,
non-reasoning parts in their original order — no thought part is ever
persisted — and when no usable model turn exists only the user turn is
appended, so history still advances (its last entry becomes the cleaned
model turn, respectively the user turn). -/
theorem C9_history_model_turn :
    (∀ content : Content,
      (filterModelContent content).parts = content.parts.filter (fun op =>
        match op with
        | none => false
        | some p => !p.thought) ∧
      (∀ op ∈ (filterModelContent content).parts, ∀ p : Part,
        op = some p → p.thought = false)) ∧
    (∀ (sess : sessionState) (store : artifactStore) (user : Content)
        (resp : GenerateContentResponse) (cand : Candidate) (content : Content),
      isBlocked resp = false → firstCandidate resp = some cand →
      cand.content = some content →
      (processResponse sess store user resp).1.history =
        appendTurnHist sess.history (some user) (some (filterModelContent content)) ∧
      (processResponse sess store user resp).1.history.getLast? =
        some (filterModelContent content)) ∧
    (∀ (sess : sessionState) (store : artifactStore) (user : Content)
        (resp : GenerateContentResponse),
      isBlocked resp = false →
      (firstCandidate resp = none ∨
        ∃ cand, firstCandidate resp = some cand ∧ cand.content = none) →
      (processResponse sess store user resp).1.history =
        appendTurnHist sess.history (some user) none ∧
      (processResponse sess store user resp).1.history.getLast? = some user) := by
  refine ⟨?_, ?_, ?_⟩
  · intro content
    refine ⟨rfl, ?_⟩
    intro op hop p hp
    have := List.of_mem_filter hop
    rw [hp] at this
    simpa using this
  · intro sess store user resp cand content hb h1 h2
    have hhist : (processResponse sess store user resp).1.history =
        appendTurnHist sess.history (some user) (some (filterModelContent content)) := by
      simp [processResponse, hb, h1, h2]
    exact ⟨hhist, by rw [hhist]; exact appendTurn_getLast_model _ _ _⟩
  · intro sess store user resp hb hcase
    have hhist : (processResponse sess store user resp).1.history =
        appendTurnHist sess.history (some user) none := by
      rcases hcase with h1 | ⟨cand, h1, h2⟩
      · simp [processResponse, hb, h1]
      · simp [processResponse, hb, h1, h2]
    exact ⟨hhist, by rw [hhist]; exact appendTurn_getLast_user _ _⟩

/-- Witness for C9 on the scenario response: the last stored history entry
is the cleaned (thought-free) model turn. -/
theorem C9_history_model_turn_witness :
    (processResponse sessEx newArtifactStore userEx respScenario).1.history.getLast? =
      some (filterModelContent contentScenario) :=
  (C9_history_model_turn.2.1 sessEx newArtifactStore userEx respScenario
    candScenario contentScenario (by decide) rfl rfl).2

end TgBot
